import Mathlib

/-!
Verification development for an OpenAPI-3 to IR parser.

The program walks a parsed document tree (object / array / literal nodes),
resolves local JSON pointers, classifies schema shapes, and synthesizes an
intermediate representation (types, enums, unions, interfaces, HTTP and
security bindings, validation rules).

The shallow embedding below models the document tree as an inductive `Ast`
(literal / object / array), mirrors the accessor helpers of the typed overlay,
and translates the parser functions the claims are about.  Source-location
ranges (`loc` fields) carried by every emitted entity are dropped throughout:
no claim is about them.  Thrown JS exceptions are modelled as `Except Unit`
errors (or `Option` where the local shape makes it clearer); `undefined` is
`Option.none`.
-/

namespace OAS3V

/-- A JSON literal value.  JS numbers are modelled as `Int`: every numeric
field the claims touch (status codes, bounds, lengths) is used as an integer
by the program. -/
inductive Lit where
  | str (s : String)
  | num (n : Int)
  | bool (b : Bool)
  | null
deriving DecidableEq, Repr

/-- JS truthiness of a literal value. -/
def jsTruthy : Lit → Bool
  | .str s => !(s == "")
  | .num n => !(n == 0)
  | .bool b => b
  | .null => false

/-- The generic parsed document tree: literal, object (ordered key/value
children) or array nodes.  Mirrors the external tree the parser consumes. -/
inductive Ast where
  | lit (l : Lit)
  | obj (fields : List (String × Ast))
  | arr (items : List Ast)

/-- First child of an object field list with the given key
(JS `children.find(n => n.key.value === key)`). -/
def lookupChild (fields : List (String × Ast)) (key : String) : Option Ast :=
  match fields with
  | [] => none
  | (k, v) :: rest => if k == key then some v else lookupChild rest key

/-- Models `DocumentNode.getProperty(key)?.value`: property lookup on an
object node, `undefined` on any other node shape. -/
def getProp : Ast → String → Option Ast
  | .obj fields, key => lookupChild fields key
  | _, _ => none

/-- Models `DocumentNode.getLiteral(key)`: the literal value of a property,
`undefined` when the property is absent or not a literal node. -/
def getLit (a : Ast) (key : String) : Option Lit :=
  match getProp a key with
  | some (.lit l) => some l
  | _ => none

/-- Models `DocumentNode.keys`: the ordered keys of an object node. -/
def objKeys : Ast → List String
  | .obj fields => fields.map Prod.fst
  | _ => []

/-- Models `DocumentNode.getArray(key)`: the children of an array-valued
property, `undefined` when absent or not an array. -/
def getArrChildren (a : Ast) (key : String) : Option (List Ast) :=
  match getProp a key with
  | some (.arr items) => some items
  | _ => none

/-- Models the source `isRef`: an object node having a `$ref` property. -/
def isRefObj : Ast → Bool
  | .obj fields => fields.any (fun p => p.1 == "$ref")
  | _ => false

/-- The `$ref` pointer string of a reference node (`RefNode.$ref.value`).
`none` models the runtime type error raised downstream when the property is
missing or not a string literal. -/
def refStr (a : Ast) : Option String :=
  match getLit a "$ref" with
  | some (.str s) => some s
  | _ => none

/-- Is the node an object node (JS `node.isObject()`). -/
def isObjNode : Ast → Bool
  | .obj _ => true
  | _ => false

/-- Prefix test on strings, models JS `String.prototype.startsWith`. -/
def jsStartsWith (s p : String) : Bool := p.data.isPrefixOf s.data

/-- Splitting a character list at every `/`, keeping empty segments, as JS
`String.prototype.split('/')` does. -/
def splitSlashAux : List Char → List (List Char)
  | [] => [[]]
  | c :: rest =>
    if c == '/' then [] :: splitSlashAux rest
    else
      match splitSlashAux rest with
      | [] => [[c]]
      | h :: t => (c :: h) :: t

/-- Models JS `ref.split('/')`. -/
def jsSplitSlash (s : String) : List String :=
  (splitSlashAux s.data).map (fun cs => ⟨cs⟩)

/-! ## Reference resolver (source `resolveRef`) -/

/-- The segment loop of the source `resolveRef`: a `#` segment resets to the
root; otherwise the current node must be an object owning the segment as a
property.  `none` models the thrown unresolvable-reference error. -/
def resolveSegs (root : Ast) : Ast → List String → Option Ast
  | cur, [] => some cur
  | cur, s :: rest =>
    if s == "#" then resolveSegs root root rest
    else
      match cur with
      | .obj fields =>
        match lookupChild fields s with
        | some child => resolveSegs root child rest
        | none => none
      | _ => none

/-- Source `resolveRef`: pointers not starting with `#` fail immediately;
otherwise the document root is walked segment by segment. -/
def resolveRef (root : Ast) (ref : String) : Option Ast :=
  if jsStartsWith ref "#" then resolveSegs root root (jsSplitSlash ref)
  else none

/-- One resolution step as the claim words it: a `#` segment denotes the
document root; any other segment must address a property of an object node,
and fails (unresolvable reference) on a non-object node or a missing
property. -/
def resolveStep (root cur : Ast) (s : String) : Option Ast :=
  if s == "#" then some root
  else
    match cur with
    | .obj fields => lookupChild fields s
    | _ => none

/-- The claim-side walk: apply `resolveStep` to each segment in order,
failing as soon as a step fails. -/
def specWalk (root : Ast) : Ast → List String → Option Ast
  | cur, [] => some cur
  | cur, s :: rest =>
    match resolveStep root cur s with
    | some next => specWalk root next rest
    | none => none

/-- Claim-side resolver, assembled from the claim wording. -/
def resolveRefSpec (root : Ast) (ref : String) : Option Ast :=
  if jsStartsWith ref "#" then specWalk root root (jsSplitSlash ref)
  else none

/-! ## Claim C9: sentinel names for operations without an operationId -/

/-- Method name from source `parseMethods`:
`operation.operationId?.value || 'UNNAMED'` (JS falsy check). -/
def parseMethodsName (op : Ast) : Lit :=
  match getLit op "operationId" with
  | some l => if jsTruthy l then l else .str "UNNAMED"
  | none => .str "UNNAMED"

/-- HTTP method name from source `parseHttpProtocol`:
`operation.operationId?.value || 'unknown'` (JS falsy check). -/
def parseHttpMethodName (op : Ast) : Lit :=
  match getLit op "operationId" with
  | some l => if jsTruthy l then l else .str "unknown"
  | none => .str "unknown"

/-! ## Schema classification (source `resolveSchema` / `toSchemaOrRef`) -/

/-- The five IR schema shapes. -/
inductive SchemaKind where
  | string | number | boolean | array | object
deriving DecidableEq, Repr

/-- The schema classification switch shared verbatim by the source
`resolveSchema` (after resolution) and `toSchemaOrRef` (on inline objects):
an object node lacking `type` is a composition and classifies as `object`;
a literal string `type` in the six recognized values picks the variant
(`integer` and `number` both map to the number schema); anything else (a
non-literal or unrecognized `type`, or a non-object node) does not
classify. -/
def classifySchema : Ast → Option SchemaKind
  | .obj fields =>
    match lookupChild fields "type" with
    | none => some .object
    | some (.lit (.str s)) =>
      if s == "string" then some .string
      else if s == "integer" then some .number
      else if s == "number" then some .number
      else if s == "boolean" then some .boolean
      else if s == "array" then some .array
      else if s == "object" then some .object
      else none
    | some _ => none
  | _ => none

/-- Claim-side classification table for the `type` discriminant, written
from the claim wording. -/
def typeTable (s : String) : Option SchemaKind :=
  if s == "string" then some .string
  else if s == "integer" then some .number
  else if s == "number" then some .number
  else if s == "boolean" then some .boolean
  else if s == "array" then some .array
  else if s == "object" then some .object
  else none

/-- A classified schema node or a reference node, the result union of the
source `toSchemaOrRef`. -/
inductive SchemaOrRef where
  | ref (node : Ast)
  | schema (kind : SchemaKind) (node : Ast)

/-- Source `toSchemaOrRef`: `undefined` input stays `undefined`; a node with
a `$ref` property becomes a reference; otherwise the node must classify, and
an unclassifiable node throws (`Unknown schema definition`), modelled as
`.error`. -/
def toSchemaOrRef : Option Ast → Except Unit (Option SchemaOrRef)
  | none => .ok none
  | some v =>
    if isRefObj v then .ok (some (.ref v))
    else
      match classifySchema v with
      | some k => .ok (some (.schema k v))
      | none => .error ()

/-- Source `resolveSchema`: an inline schema is returned as classified; a
reference is resolved against the root (a failed resolution throws), and the
target is classified, yielding `undefined` (`.ok none`) when it does not
classify. -/
def resolveSchemaM (root : Ast) :
    SchemaOrRef → Except Unit (Option (SchemaKind × Ast))
  | .schema k n => .ok (some (k, n))
  | .ref r =>
    match refStr r with
    | none => .error ()
    | some str =>
      match resolveRef root str with
      | none => .error ()
      | some node => .ok ((classifySchema node).map (fun k => (k, node)))

/-! ## Claim C10: the object-schema `anyOf` accessor reads `oneOf` -/

/-- Keep exactly the members the source filter `isObjectSchemaOrRef` keeps:
object schemas and references. -/
def isObjectSchemaOrRefM : SchemaOrRef → Bool
  | .ref _ => true
  | .schema k _ => k == .object

/-- Sequential map in the `Except` monad, modelling a JS `Array.map` whose
callback may throw. -/
def mapExcept {γ β : Type} (f : γ → Except Unit β) : List γ → Except Unit (List β)
  | [] => .ok []
  | a :: rest =>
    match f a with
    | .error e => .error e
    | .ok b =>
      match mapExcept f rest with
      | .error e => .error e
      | .ok bs => .ok (b :: bs)

/-- Source `ObjectSchemaNode.oneOf`: reads the `oneOf` property; `undefined`
unless it is an array; maps each member through `toSchemaOrRef` and keeps
object schemas and references. -/
def oneOfMembers (node : Ast) : Except Unit (Option (List SchemaOrRef)) :=
  match getProp node "oneOf" with
  | some (.arr items) =>
    match mapExcept (fun i => toSchemaOrRef (some i)) items with
    | .error e => .error e
    | .ok l => .ok (some ((l.filterMap id).filter isObjectSchemaOrRefM))
  | _ => .ok none

/-- Source `ObjectSchemaNode.anyOf`: its body reads the `oneOf` property
(not `anyOf`), exactly as the `oneOf` accessor does. -/
def anyOfMembers (node : Ast) : Except Unit (Option (List SchemaOrRef)) :=
  match getProp node "oneOf" with
  | some (.arr items) =>
    match mapExcept (fun i => toSchemaOrRef (some i)) items with
    | .error e => .error e
    | .ok l => .ok (some ((l.filterMap id).filter isObjectSchemaOrRefM))
  | _ => .ok none

/-! ## Validation rule factories (claims C5 and C8) -/

/-- The rule identifiers of the per-schema validation rule factories.  Only
the rule tag is modelled; the numeric/string payloads and source ranges the
source attaches are dropped (no claim is about them). -/
inductive RuleId where
  | stringEnum | stringFormat | stringMaxLength | stringMinLength | stringPattern
  | numberMultipleOf | numberGt | numberGte | numberLt | numberLte
  | arrayMaxItems | arrayMinItems | arrayUniqueItems
deriving DecidableEq, Repr

/-- A classified schema node, as the factories receive it (the source
`SchemaNodeUnion`: a node together with its classification tag). -/
structure SchemaM where
  kind : SchemaKind
  node : Ast

/-- JS truthiness of `def.exclusiveMinimum?.value`: the literal value of the
`exclusiveMinimum` property when present, `undefined` (falsy) otherwise. -/
def exclusiveMinimumFlag (n : Ast) : Bool :=
  match getLit n "exclusiveMinimum" with
  | some l => jsTruthy l
  | none => false

/-- Source `stringEnumFactory`: a string schema with an array-valued `enum`
property. -/
def stringEnumFactory (d : SchemaM) : Option RuleId :=
  if d.kind = .string then
    match getProp d.node "enum" with
    | some (.arr _) => some .stringEnum
    | _ => none
  else none

/-- Source `stringFormatFactory`: a string schema whose `format` is a string
literal. -/
def stringFormatFactory (d : SchemaM) : Option RuleId :=
  if d.kind = .string then
    match getLit d.node "format" with
    | some (.str _) => some .stringFormat
    | _ => none
  else none

/-- Source `stringMaxLengthFactory`: a string schema whose `maxLength` is a
number literal. -/
def stringMaxLengthFactory (d : SchemaM) : Option RuleId :=
  if d.kind = .string then
    match getLit d.node "maxLength" with
    | some (.num _) => some .stringMaxLength
    | _ => none
  else none

/-- Source `stringMinLengthFactory`: a string schema whose `minLength` is a
number literal. -/
def stringMinLengthFactory (d : SchemaM) : Option RuleId :=
  if d.kind = .string then
    match getLit d.node "minLength" with
    | some (.num _) => some .stringMinLength
    | _ => none
  else none

/-- Source `stringPatternFactory`: a string schema whose `pattern` is a
string literal. -/
def stringPatternFactory (d : SchemaM) : Option RuleId :=
  if d.kind = .string then
    match getLit d.node "pattern" with
    | some (.str _) => some .stringPattern
    | _ => none
  else none

/-- Source `numberMultipleOfFactory`: a number schema whose `multipleOf` is
a number literal. -/
def numberMultipleOfFactory (d : SchemaM) : Option RuleId :=
  if d.kind = .number then
    match getLit d.node "multipleOf" with
    | some (.num _) => some .numberMultipleOf
    | _ => none
  else none

/-- Source `numberGreaterThanFactory`: a number schema whose `minimum` is a
number literal; the tag is `number-gt` when `exclusiveMinimum` is truthy and
`number-gte` otherwise. -/
def numberGreaterThanFactory (d : SchemaM) : Option RuleId :=
  if d.kind = .number then
    match getLit d.node "minimum" with
    | some (.num _) =>
      some (if exclusiveMinimumFlag d.node then .numberGt else .numberGte)
    | _ => none
  else none

/-- Source `numberLessThanFactory`: a number schema whose `maximum` is a
number literal; the tag is `number-lt` when `exclusiveMinimum` — not
`exclusiveMaximum` — is truthy, and `number-lte` otherwise, exactly as the
source reads `def.exclusiveMinimum?.value` here. -/
def numberLessThanFactory (d : SchemaM) : Option RuleId :=
  if d.kind = .number then
    match getLit d.node "maximum" with
    | some (.num _) =>
      some (if exclusiveMinimumFlag d.node then .numberLt else .numberLte)
    | _ => none
  else none

/-- Source `arrayMaxItemsFactory`: an array schema whose `maxItems` is a
number literal. -/
def arrayMaxItemsFactory (d : SchemaM) : Option RuleId :=
  if d.kind = .array then
    match getLit d.node "maxItems" with
    | some (.num _) => some .arrayMaxItems
    | _ => none
  else none

/-- Source `arrayMinItemsFactory`: an array schema whose `minItems` is a
number literal. -/
def arrayMinItemsFactory (d : SchemaM) : Option RuleId :=
  if d.kind = .array then
    match getLit d.node "minItems" with
    | some (.num _) => some .arrayMinItems
    | _ => none
  else none

/-- Source `arrayUniqueItemsFactory`: an array schema with a `uniqueItems`
literal present — the source tests the truthiness of the literal node object
itself, which is truthy whenever present, whatever its value. -/
def arrayUniqueItemsFactory (d : SchemaM) : Option RuleId :=
  if d.kind = .array then
    match getLit d.node "uniqueItems" with
    | some _ => some .arrayUniqueItems
    | none => none
  else none

/-- The source `factories` list, in declaration order. -/
def ruleFactories : List (SchemaM → Option RuleId) :=
  [stringEnumFactory, stringFormatFactory, stringMaxLengthFactory,
   stringMinLengthFactory, stringPatternFactory, numberMultipleOfFactory,
   numberGreaterThanFactory, numberLessThanFactory, arrayMaxItemsFactory,
   arrayMinItemsFactory, arrayUniqueItemsFactory]

/-- The per-schema factory pipeline of `parseRules`:
`this.ruleFactories.map(f => f(schema)).filter(x => !!x)`. -/
def localRules (d : SchemaM) : List RuleId :=
  ruleFactories.filterMap (fun f => f d)

/-- Upper-bound rule tags, from the claim wording. -/
def isUpperBoundRule : RuleId → Bool
  | .numberLt => true
  | .numberLte => true
  | _ => false

/-- Lower-bound rule tags, from the claim wording. -/
def isLowerBoundRule : RuleId → Bool
  | .numberGt => true
  | .numberGte => true
  | _ => false

/-! ## Object validation rules (claim C8) -/

/-- The object-only rule identifiers.  The additional-properties rule is the
one the source emits with `id: 'object-additional-properties'` and
`forbidden: true` (the claim calls it object-additional-properties-forbidden
after the spec). -/
inductive ObjRuleId where
  | objectMaxProperties | objectMinProperties | objectAdditionalProperties
deriving DecidableEq, Repr

/-- The `ObjectSchemaNode.additionalProperties` accessor, restricted to what
the factory observes: a literal property value is returned as a literal node
(so `isLiteral` holds of it); an object property value is run through
`toSchemaOrRef` (a schema or reference — never a literal; an unclassifiable
object throws); anything else is `undefined`. -/
def additionalPropertiesLit (n : Ast) : Except Unit (Option Lit) :=
  match getProp n "additionalProperties" with
  | none => .ok none
  | some (.lit l) => .ok (some l)
  | some (.obj fields) =>
    match toSchemaOrRef (some (.obj fields)) with
    | .error e => .error e
    | .ok _ => .ok none
  | some (.arr _) => .ok none

/-- Source `objectMaxPropertiesFactory`: an object schema whose
`maxProperties` is a number literal. -/
def objectMaxPropertiesFactory (d : SchemaM) : Option ObjRuleId :=
  if d.kind = .object then
    match getLit d.node "maxProperties" with
    | some (.num _) => some .objectMaxProperties
    | _ => none
  else none

/-- Source `objectMinPropertiesFactory`: an object schema whose
`minProperties` is a number literal. -/
def objectMinPropertiesFactory (d : SchemaM) : Option ObjRuleId :=
  if d.kind = .object then
    match getLit d.node "minProperties" with
    | some (.num _) => some .objectMinProperties
    | _ => none
  else none

/-- Source `objectAdditionalPropertiesFactory`: emits the rule exactly when
the schema is an object schema and its `additionalProperties` accessor
yields a literal whose value is strictly `false`. -/
def objectAdditionalPropertiesFactory (d : SchemaM) : Except Unit (Option ObjRuleId) :=
  if d.kind = .object then
    match additionalPropertiesLit d.node with
    | .error e => .error e
    | .ok l? =>
      .ok (if l? = some (.bool false) then some .objectAdditionalProperties else none)
  else .ok none

/-- The source `objectFactories` pipeline of `parseObjectRules`, in
declaration order (max, min, additional-properties); a throw from the
additional-properties accessor aborts. -/
def parseObjectRules (d : SchemaM) : Except Unit (List ObjRuleId) :=
  match objectAdditionalPropertiesFactory d with
  | .error e => .error e
  | .ok add? =>
    .ok ((objectMaxPropertiesFactory d).toList ++
         (objectMinPropertiesFactory d).toList ++ add?.toList)

/-! ## Claim C3: deriving the success status code of an operation -/

def decDigitsAux : List Char → Nat → Option Nat
  | [], acc => some acc
  | c :: rest, acc =>
    if c.isDigit then decDigitsAux rest (acc * 10 + (c.toNat - 48)) else none

/-- Models the JS `Number(...)` conversion on the response-key strings the
parser feeds it (optionally empty or unsigned decimal-integer strings; HTTP
status keys are decimal integers).  `none` stands for `NaN`. -/
def jsToNumber? (s : String) : Option Int :=
  match s.data with
  | [] => some 0
  | cs => (decDigitsAux cs 0).map Int.ofNat

/-- The result union of `parsePrimaryResponseKey`: a numeric response code
or the `default` key. -/
inductive PrimaryKey where
  | code (n : Int)
  | dflt
deriving DecidableEq, Repr

/-- The `responses` child of an operation (`operation.responses`). -/
def responsesOf (op : Ast) : Option Ast := getProp op "responses"

/-- Source `parsePrimaryResponseKey`: the first response key starting with
`2` in document order, numerically converted when possible; otherwise the
`default` key when one is present; otherwise nothing.  A missing `responses`
object makes the accessor throw (`.error`).  The dead source branch
comparing the found key against `default` is kept. -/
def parsePrimaryResponseKey (op : Ast) : Except Unit (Option PrimaryKey) :=
  match responsesOf op with
  | none => .error ()
  | some resp =>
    let hasDefault := (getProp resp "default").isSome
    match (objKeys resp).find? (fun c => jsStartsWith c "2") with
    | some c =>
      if c == "default" then .ok (some .dflt)
      else
        match jsToNumber? c with
        | some n => .ok (some (.code n))
        | none => .ok (if hasDefault then some .dflt else none)
    | none => .ok (if hasDefault then some .dflt else none)

/-- The shared `resolve` helper: a node with a `$ref` property resolves
against the root (failures throw, modelled as `none`); any other node is
returned as is. -/
def resolveNode (root a : Ast) : Option Ast :=
  if isRefObj a then
    match refStr a with
    | some r => resolveRef root r
    | none => none
  else some a

/-- The keys of the `content` child of a response
(`response.content?.keys`), `[]` when absent or not an object. -/
def contentKeys (r : Ast) : List String :=
  match getProp r "content" with
  | some c => objKeys c
  | none => []

/-- Source `parseResponseCode`: a numeric primary key is the code; the
`default` key resolves the default response and picks a code by verb
(`delete` 202, `options` 204, `post` 201, anything else 200) when the
response declares body content and 204 otherwise; no primary key at all
yields 200. -/
def parseResponseCode (root : Ast) (verb : String) (op : Ast) : Except Unit Int :=
  match parsePrimaryResponseKey op with
  | .error e => .error e
  | .ok primary =>
    match primary with
    | some (.code n) => .ok n
    | some .dflt =>
      match (responsesOf op).bind (fun r => getProp r "default") with
      | some res =>
        match resolveNode root res with
        | none => .error ()
        | some r =>
          if (contentKeys r).length != 0 then
            .ok (if verb == "delete" then 202
                 else if verb == "options" then 204
                 else if verb == "post" then 201
                 else 200)
          else .ok 204
      | none => .ok 204
    | none => .ok 200

/-- The verb table of the amended claim for a usable `default` response with
body content: `delete` 202, `options` 204, `post` 201, every other verb
200. -/
def verbDefaultCode (verb : String) : Int :=
  if verb == "delete" then 202
  else if verb == "options" then 204
  else if verb == "post" then 201
  else 200

/-- A concrete operation whose only response is `default`, with body
content. -/
def defaultOnlyOp : Ast :=
  .obj [("responses", .obj [("default",
    .obj [("description", .lit (.str "d")),
          ("content", .obj [("application/json", .obj [])])])])]

/-! ## Claim C6: security projection (source `parseSecurity`) -/

/-- The security-scheme node shapes `toSecuritySchemeOrRef` can return: a
reference, or one of the four recognized `type` discriminants. -/
inductive SecNodeKind where
  | ref | http | apiKey | oauth2 | openIdConnect
deriving DecidableEq, Repr

/-- Source `toSecuritySchemeOrRef`: `undefined` stays `undefined`; a node
with a `$ref` property is a reference; an object node is classified by the
four recognized literal `type` values; anything else throws
(`Unknown security scheme type`). -/
def toSecuritySchemeOrRef : Option Ast → Except Unit (Option (SecNodeKind × Ast))
  | none => .ok none
  | some v =>
    if isRefObj v then .ok (some (.ref, v))
    else
      match v with
      | .obj _ =>
        match getLit v "type" with
        | some (.str s) =>
          if s == "apiKey" then .ok (some (.apiKey, v))
          else if s == "http" then .ok (some (.http, v))
          else if s == "oauth2" then .ok (some (.oauth2, v))
          else if s == "openIdConnect" then .ok (some (.openIdConnect, v))
          else .error ()
        | _ => .error ()
      | _ => .error ()

/-- The scheme kinds appearing in emitted IR security options. -/
inductive SecKind where
  | basic | apiKey | oauth2
deriving DecidableEq, Repr

/-- An emitted IR security scheme, reduced to what the claim is about: its
kind and the requirement key naming it.  The descriptions, parameter
locations, flow lists and source ranges the source attaches are dropped. -/
structure SecSchemeM where
  kind : SecKind
  name : String
deriving DecidableEq, Repr

/-- The document security-scheme index
(`this.schema.components?.securitySchemes`). -/
def schemesOf (doc : Ast) : Option Ast :=
  (getProp doc "components").bind (fun c => getProp c "securitySchemes")

/-- The body of the per-key mapper inside `parseSecurity`: read the
requirement value and the scheme definition (reading an unclassifiable
definition throws), return nothing when either is missing, then map the
definition by its node kind — `http` to a Basic scheme, `apiKey` to an
ApiKey scheme, `oauth2` to an OAuth2 scheme (whose flows accessor throws
when the definition has no `flows` property), and a reference or an
`openIdConnect` definition to nothing (the source switch default). -/
def securityScheme (schemes? : Option Ast) (requirement : Ast) (key : String) :
    Except Unit (Option SecSchemeM) :=
  let requirementVal := getArrChildren requirement key
  match schemes? with
  | none => .ok none
  | some schemes =>
    match toSecuritySchemeOrRef (getProp schemes key) with
    | .error e => .error e
    | .ok none => .ok none
    | .ok (some (kind, defn)) =>
      match requirementVal with
      | none => .ok none
      | some _ =>
        match kind with
        | .http => .ok (some ⟨.basic, key⟩)
        | .apiKey => .ok (some ⟨.apiKey, key⟩)
        | .oauth2 =>
          if (getProp defn "flows").isSome then .ok (some ⟨.oauth2, key⟩)
          else .error ()
        | .ref => .ok none
        | .openIdConnect => .ok none

/-- One security option: the requirement keys in their own order, each
mapped through the per-key mapper, keeping only the produced schemes
(`.filter(scheme => !!scheme)`). -/
def securityOption (schemes? : Option Ast) (requirement : Ast) :
    Except Unit (List SecSchemeM) :=
  match mapExcept (securityScheme schemes? requirement) (objKeys requirement) with
  | .error e => .error e
  | .ok l => .ok (l.filterMap id)

/-- Source `parseSecurity`: the effective requirement list is
`operationSecurity || defaultSecurity || []` (operation-level overrides
document-level entirely; JS `||` picks the first defined array, even an
empty one), each requirement becoming one option. -/
def parseSecurity (doc op : Ast) : Except Unit (List (List SecSchemeM)) :=
  mapExcept (securityOption (schemesOf doc))
    (((getArrChildren op "security").orElse
        (fun _ => getArrChildren doc "security")).getD [])

/-! ## Claim C4: parameter assembly for methods and HTTP bindings -/

/-- Word expansion for the kebab-case conversion of the external `case`
package: an uppercase letter opens a new dash-separated word (lowercased),
a non-alphanumeric character becomes a dash. -/
def kebabCharList : List Char → List Char
  | [] => []
  | c :: rest =>
    if c.isUpper then '-' :: c.toLower :: kebabCharList rest
    else if c.isAlphanum then c :: kebabCharList rest
    else '-' :: kebabCharList rest

/-- Collapse runs of dashes; with `true` as the starting flag, leading
dashes are dropped. -/
def collapseAux : Bool → List Char → List Char
  | _, [] => []
  | prevDash, c :: rest =>
    if c == '-' then
      if prevDash then collapseAux true rest
      else '-' :: collapseAux true rest
    else c :: collapseAux false rest

def dropLeadingDashes : List Char → List Char
  | '-' :: rest => dropLeadingDashes rest
  | l => l

/-- Models the `kebab` conversion of the external `case` package for the
alphanumeric, dash and camel-case inputs extension keys are made of:
words split at case or separator boundaries, lowercased, joined by
dashes. -/
def kebab (s : String) : String :=
  ⟨(dropLeadingDashes ((collapseAux true (kebabCharList s.data)).reverse)).reverse⟩

/-- Source `parseMeta`, restricted to what `parseBodyParamName` reads: the
properties of an object node whose key starts with `x-`, re-keyed by
stripping the first two characters. -/
def metaPairs : Ast → List (String × Ast)
  | .obj fields =>
    (fields.filter (fun p => jsStartsWith p.1 "x-")).map
      (fun p => (⟨p.1.data.drop 2⟩, p.2))
  | _ => []

/-- Source `parseBodyParamName`: the value of the first extension whose
kebab-cased key is `codegen-request-body-name`, when that value is a string
literal; the fallback name is `body`. -/
def parseBodyParamName (op : Ast) : String :=
  match (metaPairs op).find? (fun p => kebab p.1 == "codegen-request-body-name") with
  | some (_, .lit (.str s)) => s
  | _ => "body"

/-- Source `resolveParam`: a non-reference node is returned as is; a
reference is resolved against the root (a failed resolution throws), and a
non-object target is `undefined` (`.ok none`). -/
def resolveParam (root p : Ast) : Except Unit (Option Ast) :=
  if isRefObj p then
    match refStr p with
    | none => .error ()
    | some r =>
      match resolveRef root r with
      | none => .error ()
      | some node => .ok (if isObjNode node then some node else none)
  else .ok (some p)

/-- The `operation.parameters` accessor: `undefined` becomes `[]` (the
`|| []` at both call sites); a present non-array value throws. -/
def opParamsOf (op : Ast) : Except Unit (List Ast) :=
  match getProp op "parameters" with
  | none => .ok []
  | some (.arr items) => .ok items
  | some _ => .error ()

/-- An emitted HTTP binding parameter, reduced to its name and location.
The array serialization style and the source ranges are dropped; the schema
accessor the array check runs is still evaluated for its possible throw. -/
structure HttpParamM where
  name : Lit
  paramIn : Lit
deriving DecidableEq, Repr

/-- One iteration of the parameter loop of `parseHttpProtocol`: resolve the
parameter (a failed resolution, or one yielding `undefined`, throws via
`parseParameterName`); a missing `in` literal throws when its value is
read; a `cookie` location drops the parameter with a warning; a
header/path/query location evaluates the resolved schema accessor (which
may throw) for the array-style check; a missing `name` literal throws when
the parameter is pushed. -/
def httpParamOf (root p : Ast) : Except Unit (Option HttpParamM) :=
  match resolveParam root p with
  | .error e => .error e
  | .ok none => .error ()
  | .ok (some resolved) =>
    match getLit resolved "in" with
    | none => .error ()
    | some loc =>
      if loc == .str "cookie" then .ok none
      else
        match getLit resolved "name" with
        | none => .error ()
        | some nm =>
          if loc == .str "header" ∨ loc == .str "path" ∨ loc == .str "query" then
            match toSchemaOrRef (getProp resolved "schema") with
            | .error e => .error e
            | .ok _ => .ok (some ⟨nm, loc⟩)
          else .ok (some ⟨nm, loc⟩)

/-- The parameter loop of `parseHttpProtocol` over a list of parameter
nodes, in order, dropping the `cookie` ones. -/
def httpGroup (root : Ast) : List Ast → Except Unit (List HttpParamM)
  | [] => .ok []
  | p :: rest =>
    match httpParamOf root p with
    | .error e => .error e
    | .ok none => httpGroup root rest
    | .ok (some h) =>
      match httpGroup root rest with
      | .error e => .error e
      | .ok t => .ok (h :: t)

/-- The request-body parameter of an operation, at the granularity this
claim needs: the source `parseRequestBody` returns `undefined` when the
operation has no `requestBody`; otherwise whether a parameter is produced
(the body resolution, content lookup, schema resolution and type synthesis
of `parseRequestBody`/`parseType`) is supplied by `bodyElab`, and the
produced parameter is named by `parseBodyParamName` exactly as the source
passes that name in. -/
def requestBodyName (bodyElab : Ast → Except Unit Bool) (op : Ast) :
    Except Unit (Option String) :=
  match getProp op "requestBody" with
  | none => .ok none
  | some b =>
    match bodyElab b with
    | .error e => .error e
    | .ok present => .ok (if present then some (parseBodyParamName op) else none)

/-- The HTTP binding parameter list of one method (`parseHttpProtocol`,
lines 219-282): the synthesized body parameter first when present (location
`body`), then the loop over `[...operation.parameters, ...commonParameters]`
— operation-level parameters before the path-level shared ones. -/
def parseHttpMethodParams (bodyElab : Ast → Except Unit Bool) (root op : Ast)
    (commonParams : List Ast) : Except Unit (List HttpParamM) :=
  match requestBodyName bodyElab op with
  | .error e => .error e
  | .ok body? =>
    match opParamsOf op with
    | .error e => .error e
    | .ok opParams =>
      match httpGroup root (opParams ++ commonParams) with
      | .error e => .error e
      | .ok rest =>
        .ok ((body?.map (fun nm => HttpParamM.mk (.str nm) (.str "body"))).toList
             ++ rest)

/-- An entry of a method parameter list: the synthesized body parameter, or
a declared parameter elaborated to `β` (the elaboration `parseParameter`
performs — type synthesis, rules — is a parameter of the embedding; only
the identity and order of the entries are at stake in this claim). -/
inductive MethodParam (β : Type) where
  | body (name : String)
  | param (p : β)
deriving DecidableEq, Repr

/-- The resolution step of `parseParameters`:
`parametersOrRefs.map(resolveParam).filter(p => !!p)` — resolution failures
throw, unresolved (non-object) targets are silently dropped. -/
def resolveFilter (root : Ast) : List Ast → Except Unit (List Ast)
  | [] => .ok []
  | p :: rest =>
    match resolveParam root p with
    | .error e => .error e
    | .ok none => resolveFilter root rest
    | .ok (some a) =>
      match resolveFilter root rest with
      | .error e => .error e
      | .ok t => .ok (a :: t)

/-- The processing `parseParameters` applies to one group of declared
parameters: resolve-and-filter, then elaborate each survivor in order. -/
def methodGroup {β : Type} (paramElab : Ast → Except Unit β) (root : Ast)
    (ps : List Ast) : Except Unit (List (MethodParam β)) :=
  match resolveFilter root ps with
  | .error e => .error e
  | .ok resolved =>
    match mapExcept paramElab resolved with
    | .error e => .error e
    | .ok elaborated => .ok (elaborated.map MethodParam.param)

/-- The method parameter list of one operation (source `parseParameters`):
the loop runs over `[...commonParameters, ...operation.parameters]` —
path-level shared parameters before operation-level ones — and the
synthesized body parameter, when present, is prepended. -/
def parseParametersM {β : Type} (bodyElab : Ast → Except Unit Bool)
    (paramElab : Ast → Except Unit β) (root op : Ast)
    (commonParams : List Ast) : Except Unit (List (MethodParam β)) :=
  match opParamsOf op with
  | .error e => .error e
  | .ok opParams =>
    match resolveFilter root (commonParams ++ opParams) with
    | .error e => .error e
    | .ok resolved =>
      match mapExcept paramElab resolved with
      | .error e => .error e
      | .ok elaborated =>
        match requestBodyName bodyElab op with
        | .error e => .error e
        | .ok body? =>
          .ok ((body?.map MethodParam.body).toList
               ++ elaborated.map MethodParam.param)

/-- A concrete operation-level query parameter named `o`. -/
def queryParamO : Ast :=
  .obj [("name", .lit (.str "o")), ("in", .lit (.str "query")),
        ("schema", .obj [("type", .lit (.str "string"))])]

/-- A concrete path-level (shared) query parameter named `c`. -/
def queryParamC : Ast :=
  .obj [("name", .lit (.str "c")), ("in", .lit (.str "query")),
        ("schema", .obj [("type", .lit (.str "string"))])]

/-- A concrete operation with one declared parameter and no request
body. -/
def opWithParam : Ast := .obj [("parameters", .arr [queryParamO])]

/-- A concrete operation with one declared parameter and a request
body. -/
def opWithBody : Ast :=
  .obj [("parameters", .arr [queryParamO]),
        ("requestBody", .obj [("content", .obj [])])]

/-! ## Claim C1: the name-keyed output collections of `parse` -/

/-- First-match association lookup (string keys). -/
def assoc {α : Type} (l : List (String × α)) (k : String) : Option α :=
  match l with
  | [] => none
  | (a, v) :: rest => if a = k then some v else assoc rest k

/-- Last-match association lookup: the value of the last entry carrying the
key. -/
def lastAssoc {α : Type} (l : List (String × α)) (k : String) : Option α :=
  assoc l.reverse k

/-- One step of the source reduce `(acc, item) => ({...acc, [name]: item})`:
when the key already exists its value is overwritten in place, otherwise the
entry is appended.  JS object key insertion order is kept; the special
numeric-key reordering of JS objects is not modelled, as no claim depends on
output order. -/
def upsert {α : Type} (acc : List (String × α)) (key : String) (v : α) :
    List (String × α) :=
  if acc.any (fun p => p.1 == key) then
    acc.map (fun p => if p.1 = key then (p.1, v) else p)
  else acc ++ [(key, v)]

def keyByNameAux {α : Type} (acc : List (String × α)) :
    List (String × α) → List (String × α)
  | [] => acc
  | (k, v) :: rest => keyByNameAux (upsert acc k v) rest

/-- The source reduce building `typesByName` / `enumsByName` / `unionsByName`
in `parse` (lines 74-88), together with the subsequent
`Object.keys(map).map(name => map[name])` projection: an association list
with unique keys, later entries of the input overwriting earlier ones. -/
def keyByName {α : Type} (items : List (String × α)) : List (String × α) :=
  keyByNameAux [] items

/-- A type-synthesis event of one parse pass, in chronological order of the
pass: `named` events are the component-schema types emitted by
`parseDefinitions`, `anon` events are the pushes onto `this.anonymousTypes`
performed by `parseType`.  `parse` runs `parseInterfaces()` (which performs
`anon` pushes) before `parseDefinitions()` (whose results are the `named`
entries), yet reduces `[...types, ...this.anonymousTypes]`. -/
inductive TypeSynth (α : Type) where
  | named (name : String) (val : α)
  | anon (name : String) (val : α)

def synthPair {α : Type} : TypeSynth α → String × α
  | .named n v => (n, v)
  | .anon n v => (n, v)

/-- The component-schema types of an event trace, in trace order (the order
of the `types` list in `parse`). -/
def namedOf {α : Type} (events : List (TypeSynth α)) : List (String × α) :=
  events.filterMap (fun e =>
    match e with
    | .named n v => some (n, v)
    | .anon _ _ => none)

/-- The anonymous types of an event trace, in trace order (the order of
`this.anonymousTypes`). -/
def anonOf {α : Type} (events : List (TypeSynth α)) : List (String × α) :=
  events.filterMap (fun e =>
    match e with
    | .anon n v => some (n, v)
    | .named _ _ => none)

/-- The Types collection of the returned IR root, as `parse` assembles it:
the reduce runs over `[...types, ...this.anonymousTypes]`. -/
def typesOut {α : Type} (events : List (TypeSynth α)) : List (String × α) :=
  keyByName (namedOf events ++ anonOf events)

/-- The value of the last entity with the given name in synthesis
(chronological) order — what the claim says survives. -/
def lastSynthesized {α : Type} (events : List (TypeSynth α)) (k : String) :
    Option α :=
  lastAssoc (events.map synthPair) k

/-! ## Concrete sample nodes used by witnesses -/

/-- A sample document root. -/
def sampleRoot : Ast := .obj [("a", .lit (.num 1))]

/-- An object node declaring only an `anyOf` list. -/
def anyOfOnlyNode : Ast :=
  .obj [("anyOf", .arr [.obj [("type", .lit (.str "object"))]])]

/-- A concrete security-scheme index: an `http` scheme under `k1` and an
`openIdConnect` scheme under `k2`. -/
def sampleSchemes : Ast :=
  .obj [("k1", .obj [("type", .lit (.str "http"))]),
        ("k2", .obj [("type", .lit (.str "openIdConnect"))])]

/-- A concrete document carrying the sample scheme index and a
document-level security list naming only `k1`. -/
def sampleDoc : Ast :=
  .obj [("components", .obj [("securitySchemes", sampleSchemes)]),
        ("security", .arr [.obj [("k1", .arr [])]])]

/-- A concrete operation declaring its own security list naming `k1` and
`k2`. -/
def sampleOp : Ast :=
  .obj [("security", .arr [.obj [("k1", .arr []), ("k2", .arr [])]])]

/-! # Theorems -/

theorem resolveSegs_eq_specWalk (root : Ast) (segs : List String) :
    ∀ cur, resolveSegs root cur segs = specWalk root cur segs := by
  induction segs with
  | nil => intro cur; rfl
  | cons s rest ih =>
    intro cur
    show resolveSegs root cur (s :: rest) = specWalk root cur (s :: rest)
    unfold resolveSegs specWalk resolveStep
    by_cases h : (s == "#") = true
    · simp only [h, if_true]
      exact ih root
    · simp only [eq_false_of_ne_true h, Bool.false_eq_true, if_false]
      match cur with
      | .lit l => rfl
      | .arr items => rfl
      | .obj fields =>
        cases hl : lookupChild fields s with
        | none => simp [hl]
        | some child => simp [hl, ih child]

/-- C2: a pointer not starting with `#` fails immediately; the pointer `#`
alone resolves to the document root; and resolution is exactly the
segment-by-segment walk that fails precisely when a segment is looked up on
a non-object node or names a property the object node does not have. -/
theorem resolveRef_claim (root : Ast) (p : String) :
    (jsStartsWith p "#" = false → resolveRef root p = none)
    ∧ resolveRef root "#" = some root
    ∧ resolveRef root p = resolveRefSpec root p := by
  refine ⟨fun h => by simp [resolveRef, h], rfl, ?_⟩
  unfold resolveRef resolveRefSpec
  by_cases h : jsStartsWith p "#"
  · simp only [h, if_true]
    exact resolveSegs_eq_specWalk root (jsSplitSlash p) root
  · simp [h]

/-- C2 witness: the claim theorem applied at a concrete root and concrete
pointers. -/
theorem resolveRef_claim_witness :
    resolveRef sampleRoot "abc" = none
    ∧ resolveRef sampleRoot "#" = some sampleRoot :=
  ⟨(resolveRef_claim sampleRoot "abc").1 rfl,
   (resolveRef_claim sampleRoot "#").2.1⟩

theorem assoc_append {α : Type} (l₁ l₂ : List (String × α)) (k : String) :
    assoc (l₁ ++ l₂) k =
      match assoc l₁ k with
      | some v => some v
      | none => assoc l₂ k := by
  induction l₁ with
  | nil => simp [assoc]
  | cons p rest ih =>
    obtain ⟨a, v⟩ := p
    by_cases h : a = k <;> simp [assoc, h, ih]

theorem assoc_of_any_eq_false {α : Type} (acc : List (String × α)) (key : String)
    (h : acc.any (fun p => p.1 == key) = false) : assoc acc key = none := by
  induction acc with
  | nil => rfl
  | cons p rest ih =>
    simp only [List.any_cons, Bool.or_eq_false_iff] at h
    have h1 : ¬(p.1 = key) := by
      intro hc
      rw [hc] at h
      simp at h
    simp [assoc, h1, ih h.2]

theorem isSome_assoc_of_any {α : Type} (acc : List (String × α)) (key : String)
    (h : acc.any (fun p => p.1 == key) = true) : (assoc acc key).isSome = true := by
  induction acc with
  | nil => simp at h
  | cons p rest ih =>
    obtain ⟨a, v⟩ := p
    by_cases hk : a = key
    · simp [assoc, hk]
    · have hrest : rest.any (fun p => p.1 == key) = true := by
        simp only [List.any_cons] at h
        rcases Bool.or_eq_true_iff.mp h with h1 | h2
        · exact absurd (by simpa using h1) hk
        · exact h2
      simp [assoc, hk, ih hrest]

theorem assoc_map_overwrite {α : Type} (acc : List (String × α)) (key k : String)
    (v : α) :
    assoc (acc.map (fun p => if p.1 = key then (p.1, v) else p)) k =
      if key = k then (assoc acc k).map (fun _ => v) else assoc acc k := by
  induction acc with
  | nil => by_cases h : key = k <;> simp [assoc, h]
  | cons p rest ih =>
    obtain ⟨a, w⟩ := p
    simp only [List.map_cons]
    by_cases hak : a = key
    · subst hak
      simp only [if_pos rfl]
      by_cases hk : a = k
      · subst hk
        simp [assoc, ih]
      · simp [assoc, hk, ih, fun hh : a = k => hk hh]
    · simp only [if_neg hak]
      by_cases hk : a = k
      · subst hk
        have hkey : ¬ key = a := fun hh => hak hh.symm
        simp [assoc, hkey]
      · simp [assoc, hk, ih]

theorem assoc_upsert {α : Type} (acc : List (String × α)) (key k : String) (v : α) :
    assoc (upsert acc key v) k = if key = k then some v else assoc acc k := by
  unfold upsert
  by_cases hp : acc.any (fun p => p.1 == key) = true
  · rw [if_pos hp, assoc_map_overwrite]
    by_cases hk : key = k
    · subst hk
      have hsome := isSome_assoc_of_any acc key hp
      cases h : assoc acc key with
      | none => rw [h] at hsome; simp at hsome
      | some w => simp [h]
    · simp [hk]
  · have hp' : acc.any (fun p => p.1 == key) = false := Bool.eq_false_iff.mpr hp
    rw [if_neg hp, assoc_append]
    by_cases hk : key = k
    · subst hk
      rw [assoc_of_any_eq_false acc key hp']
      simp [assoc]
    · cases h : assoc acc k <;> simp [assoc, hk, h]

theorem keyByNameAux_assoc {α : Type} (items : List (String × α)) :
    ∀ (acc : List (String × α)) (k : String),
      assoc (keyByNameAux acc items) k =
        match lastAssoc items k with
        | some v => some v
        | none => assoc acc k := by
  induction items with
  | nil => intro acc k; simp [keyByNameAux, lastAssoc, assoc]
  | cons p rest ih =>
    intro acc k
    obtain ⟨a, v⟩ := p
    show assoc (keyByNameAux (upsert acc a v) rest) k = _
    rw [ih]
    have hrev : lastAssoc ((a, v) :: rest) k =
        match lastAssoc rest k with
        | some w => some w
        | none => if a = k then some v else none := by
      unfold lastAssoc
      rw [List.reverse_cons, assoc_append]
      cases lastAssoc rest k <;> simp [assoc, lastAssoc]
    rw [hrev]
    cases lastAssoc rest k with
    | some w => rfl
    | none => rw [assoc_upsert]; by_cases h : a = k <;> simp [h]

theorem keyByName_assoc {α : Type} (items : List (String × α)) (k : String) :
    assoc (keyByName items) k = lastAssoc items k := by
  unfold keyByName
  rw [keyByNameAux_assoc]
  cases lastAssoc items k <;> simp [assoc]

theorem names_map_overwrite {α : Type} (acc : List (String × α)) (key : String)
    (v : α) :
    (acc.map (fun p => if p.1 = key then (p.1, v) else p)).map Prod.fst =
      acc.map Prod.fst := by
  induction acc with
  | nil => rfl
  | cons p rest ih =>
    by_cases h : p.1 = key <;> simp [h, ih]

theorem nodup_upsert {α : Type} (acc : List (String × α)) (key : String) (v : α)
    (h : (acc.map Prod.fst).Nodup) : ((upsert acc key v).map Prod.fst).Nodup := by
  unfold upsert
  by_cases hp : acc.any (fun p => p.1 == key) = true
  · rw [if_pos hp, names_map_overwrite]; exact h
  · have hp' : acc.any (fun p => p.1 == key) = false := Bool.eq_false_iff.mpr hp
    rw [if_neg hp]
    have hnotin : key ∉ acc.map Prod.fst := by
      intro hmem
      obtain ⟨p, hpmem, hfst⟩ := List.mem_map.mp hmem
      have hfalse := List.any_eq_false.mp hp' p hpmem
      simp [hfst] at hfalse
    simp only [List.map_append, List.map_cons, List.map_nil]
    rw [List.nodup_append]
    refine ⟨h, List.nodup_singleton key, ?_⟩
    intro a ha hb
    rw [List.mem_singleton.mp hb] at ha
    exact hnotin ha

theorem keyByNameAux_nodup {α : Type} (items : List (String × α)) :
    ∀ (acc : List (String × α)), (acc.map Prod.fst).Nodup →
      ((keyByNameAux acc items).map Prod.fst).Nodup := by
  induction items with
  | nil => intro acc h; exact h
  | cons p rest ih =>
    intro acc h
    exact ih (upsert acc p.1 p.2) (nodup_upsert acc p.1 p.2 h)

theorem keyByName_nodup {α : Type} (items : List (String × α)) :
    ((keyByName items).map Prod.fst).Nodup :=
  keyByNameAux_nodup items [] List.nodup_nil

/-- C1 (amended): each output collection holds at most one entry per name,
and the survivor of a collision is the last entry in reduce order.  For
Enums and Unions (single accumulator lists) reduce order is synthesis order;
for Types the reduce runs over the named component types followed by the
anonymous types, so the surviving entry is the last in that concatenation —
not necessarily the last synthesized, since all anonymous types of
`parseInterfaces` are synthesized before any named type of
`parseDefinitions` yet are reduced after them. -/
theorem typesOut_claim {α : Type} (events : List (TypeSynth α))
    (enumsOrUnions : List (String × α)) (k : String) :
    ((typesOut events).map Prod.fst).Nodup
    ∧ assoc (typesOut events) k = lastAssoc (namedOf events ++ anonOf events) k
    ∧ ((keyByName enumsOrUnions).map Prod.fst).Nodup
    ∧ assoc (keyByName enumsOrUnions) k = lastAssoc enumsOrUnions k :=
  ⟨keyByName_nodup _, keyByName_assoc _ _, keyByName_nodup _, keyByName_assoc _ _⟩

/-- C1 counterexample: a trace in which an anonymous type named `a` is
synthesized first (during `parseInterfaces`) and a component-schema type
named `a` second (during `parseDefinitions`).  The last synthesized entry
carries value 2, but the Types collection of the output keeps value 1: the
reduce order `[...types, ...anonymousTypes]` lets the earlier-synthesized
anonymous entry overwrite the later-synthesized named one. -/
theorem typesOut_counterexample :
    lastSynthesized [TypeSynth.anon "a" 1, TypeSynth.named "a" 2] "a" = some 2
    ∧ assoc (typesOut [TypeSynth.anon "a" 1, TypeSynth.named "a" 2]) "a" = some 1
    ∧ assoc (typesOut [TypeSynth.anon "a" 1, TypeSynth.named "a" 2]) "a" ≠
        lastSynthesized [TypeSynth.anon "a" 1, TypeSynth.named "a" 2] "a" := by
  refine ⟨rfl, rfl, ?_⟩
  decide

/-- C9: an operation without an operationId gets the sentinel name `UNNAMED`
as its IR Method name but `unknown` as its HttpMethod name, and the two
disagree. -/
theorem sentinelNames_claim (op : Ast) (h : getLit op "operationId" = none) :
    parseMethodsName op = .str "UNNAMED"
    ∧ parseHttpMethodName op = .str "unknown"
    ∧ parseMethodsName op ≠ parseHttpMethodName op := by
  unfold parseMethodsName parseHttpMethodName
  rw [h]
  exact ⟨rfl, rfl, by decide⟩

/-- C9 witness: the claim theorem applied to a concrete operation node that
has no operationId. -/
theorem sentinelNames_claim_witness :
    parseMethodsName (Ast.obj []) = .str "UNNAMED"
    ∧ parseHttpMethodName (Ast.obj []) = .str "unknown"
    ∧ parseMethodsName (Ast.obj []) ≠ parseHttpMethodName (Ast.obj []) :=
  sentinelNames_claim (Ast.obj []) rfl

/-- C10: the `anyOf` accessor of an object schema node always returns
exactly what the `oneOf` accessor returns (it reads the underlying `oneOf`
property), and on a node that declares no `oneOf` property — in particular
one declaring only an `anyOf` list — it yields no members. -/
theorem anyOf_claim (node : Ast) :
    anyOfMembers node = oneOfMembers node
    ∧ (getProp node "oneOf" = none → anyOfMembers node = .ok none) := by
  refine ⟨rfl, fun h => ?_⟩
  unfold anyOfMembers
  rw [h]

/-- C10 witness: the claim theorem applied to a concrete node declaring only
an `anyOf` list. -/
theorem anyOf_claim_witness :
    anyOfMembers anyOfOnlyNode = .ok none :=
  (anyOf_claim anyOfOnlyNode).2 rfl

/-- C7: schema classification is a pure function of the node: an
object-shaped node without a `type` field classifies as the object schema;
an object-shaped node whose `type` is one of the six recognized literal
strings classifies by the table (with `integer` and `number` both going to
the number schema); a non-object node does not classify; `toSchemaOrRef`
applies the same classification to inline (non-reference) nodes, throwing
where there is no classification; and `resolveSchema` applies it to the
resolved target of a reference, yielding no result where there is no
classification. -/
theorem classifySchema_claim (fields : List (String × Ast)) (s : String)
    (node v : Ast) :
    (lookupChild fields "type" = none → classifySchema (.obj fields) = some .object)
    ∧ (lookupChild fields "type" = some (.lit (.str s)) →
        classifySchema (.obj fields) = typeTable s)
    ∧ (isObjNode node = false → classifySchema node = none)
    ∧ (isRefObj v = false →
        toSchemaOrRef (some v) =
          match classifySchema v with
          | some k => .ok (some (.schema k v))
          | none => .error ())
    ∧ (∀ (root r : Ast) (str : String) (target : Ast),
        refStr r = some str → resolveRef root str = some target →
        resolveSchemaM root (.ref r) =
          .ok ((classifySchema target).map (fun k => (k, target)))) := by
  refine ⟨fun h => ?_, fun h => ?_, fun h => ?_, fun h => ?_, fun root r str target h1 h2 => ?_⟩
  · simp only [classifySchema]; rw [h]
  · simp only [classifySchema, typeTable]; rw [h]
  · cases node with
    | obj fields' => simp [isObjNode] at h
    | lit l => rfl
    | arr items => rfl
  · simp only [toSchemaOrRef]
    rw [h]
    simp
  · simp only [resolveSchemaM, h1, h2]

/-- C7 witness: the claim theorem applied to a concrete `integer` schema
node (classifying as the number schema) and a concrete non-object node (not
classifying). -/
theorem classifySchema_claim_witness :
    classifySchema (Ast.obj [("type", Ast.lit (Lit.str "integer"))]) =
      some SchemaKind.number
    ∧ classifySchema (Ast.lit (Lit.str "x")) = none :=
  ⟨(classifySchema_claim [("type", Ast.lit (Lit.str "integer"))] "integer"
      (Ast.lit (Lit.str "x")) (Ast.obj [])).2.1 rfl,
   (classifySchema_claim [("type", Ast.lit (Lit.str "integer"))] "integer"
      (Ast.lit (Lit.str "x")) (Ast.obj [])).2.2.1 rfl⟩

theorem numberMultipleOfFactory_tag (d : SchemaM) (r : RuleId)
    (h : numberMultipleOfFactory d = some r) : r = .numberMultipleOf := by
  unfold numberMultipleOfFactory at h
  split at h
  · split at h
    · exact (Option.some.inj h).symm
    · exact absurd h (by simp)
  · exact absurd h (by simp)

theorem numberGreaterThanFactory_tag (d : SchemaM) (r : RuleId)
    (h : numberGreaterThanFactory d = some r) :
    r = .numberGt ∨ r = .numberGte := by
  unfold numberGreaterThanFactory at h
  split at h
  · split at h
    · cases hf : exclusiveMinimumFlag d.node <;> rw [hf] at h <;>
        simp at h <;> simp [h.symm]
    · exact absurd h (by simp)
  · exact absurd h (by simp)

theorem localRules_number (n : Ast) :
    localRules ⟨.number, n⟩ =
      (numberMultipleOfFactory ⟨.number, n⟩).toList ++
      (numberGreaterThanFactory ⟨.number, n⟩).toList ++
      (numberLessThanFactory ⟨.number, n⟩).toList := by
  unfold localRules ruleFactories
  simp only [List.filterMap_cons, List.filterMap_nil]
  have hs : ∀ key : String,
      (if (SchemaM.mk .number n).kind = SchemaKind.string then
        (match getLit n key with
          | some (.num _) => some RuleId.stringMaxLength
          | _ => none)
      else none) = none := by intro key; rfl
  simp only [stringEnumFactory, stringFormatFactory, stringMaxLengthFactory,
    stringMinLengthFactory, stringPatternFactory, arrayMaxItemsFactory,
    arrayMinItemsFactory, arrayUniqueItemsFactory]
  norm_num
  rcases h1 : numberMultipleOfFactory ⟨.number, n⟩ with _ | r1 <;>
    rcases h2 : numberGreaterThanFactory ⟨.number, n⟩ with _ | r2 <;>
    rcases h3 : numberLessThanFactory ⟨.number, n⟩ with _ | r3 <;>
    simp [h1, h2, h3]

/-- C5: for a number schema with a numeric `maximum`, the factory pipeline
emits exactly one upper-bound rule, tagged `number-lt` when the schema
`exclusiveMinimum` flag is truthy and `number-lte` otherwise; symmetrically
a numeric `minimum` yields exactly the `number-gt`/`number-gte` rule from
the same flag; and the upper-bound factory output is a function of the
`maximum` and `exclusiveMinimum` properties alone, so the `exclusiveMaximum`
flag is never consulted. -/
theorem numberBoundRules_claim (n : Ast) :
    (∀ m : Int, getLit n "maximum" = some (.num m) →
      (localRules ⟨.number, n⟩).filter isUpperBoundRule =
        [if exclusiveMinimumFlag n then .numberLt else .numberLte])
    ∧ (∀ m : Int, getLit n "minimum" = some (.num m) →
      (localRules ⟨.number, n⟩).filter isLowerBoundRule =
        [if exclusiveMinimumFlag n then .numberGt else .numberGte])
    ∧ (∀ n₂ : Ast, getLit n "maximum" = getLit n₂ "maximum" →
        getLit n "exclusiveMinimum" = getLit n₂ "exclusiveMinimum" →
        numberLessThanFactory ⟨.number, n⟩ = numberLessThanFactory ⟨.number, n₂⟩) := by
  refine ⟨fun m h => ?_, fun m h => ?_, fun n₂ hmax hexcl => ?_⟩
  · rw [localRules_number]
    have hlt : numberLessThanFactory ⟨.number, n⟩ =
        some (if exclusiveMinimumFlag n then .numberLt else .numberLte) := by
      unfold numberLessThanFactory
      rw [if_pos rfl]
      rw [show getLit (SchemaM.mk .number n).node "maximum" = some (.num m) from h]
    rw [hlt]
    rcases h1 : numberMultipleOfFactory ⟨.number, n⟩ with _ | r1 <;>
      rcases h2 : numberGreaterThanFactory ⟨.number, n⟩ with _ | r2
    · cases hf : exclusiveMinimumFlag n <;> simp [isUpperBoundRule]
    · rcases numberGreaterThanFactory_tag _ _ h2 with hr | hr <;> subst hr <;>
        cases hf : exclusiveMinimumFlag n <;> simp [isUpperBoundRule]
    · have hr := numberMultipleOfFactory_tag _ _ h1; subst hr
      cases hf : exclusiveMinimumFlag n <;> simp [isUpperBoundRule]
    · have hr1 := numberMultipleOfFactory_tag _ _ h1; subst hr1
      rcases numberGreaterThanFactory_tag _ _ h2 with hr | hr <;> subst hr <;>
        cases hf : exclusiveMinimumFlag n <;> simp [isUpperBoundRule]
  · rw [localRules_number]
    have hgt : numberGreaterThanFactory ⟨.number, n⟩ =
        some (if exclusiveMinimumFlag n then .numberGt else .numberGte) := by
      unfold numberGreaterThanFactory
      rw [if_pos rfl]
      rw [show getLit (SchemaM.mk .number n).node "minimum" = some (.num m) from h]
    rw [hgt]
    rcases h1 : numberMultipleOfFactory ⟨.number, n⟩ with _ | r1 <;>
      rcases h3 : numberLessThanFactory ⟨.number, n⟩ with _ | r3
    · cases hf : exclusiveMinimumFlag n <;> simp [isLowerBoundRule]
    · have hr3 : r3 = .numberLt ∨ r3 = .numberLte := by
        unfold numberLessThanFactory at h3
        split at h3
        · split at h3
          · cases hf : exclusiveMinimumFlag n <;> rw [hf] at h3 <;>
              simp at h3 <;> simp [h3.symm]
          · exact absurd h3 (by simp)
        · exact absurd h3 (by simp)
      rcases hr3 with hr | hr <;> subst hr <;>
        cases hf : exclusiveMinimumFlag n <;> simp [isLowerBoundRule]
    · have hr := numberMultipleOfFactory_tag _ _ h1; subst hr
      cases hf : exclusiveMinimumFlag n <;> simp [isLowerBoundRule]
    · have hr1 := numberMultipleOfFactory_tag _ _ h1; subst hr1
      have hr3 : r3 = .numberLt ∨ r3 = .numberLte := by
        unfold numberLessThanFactory at h3
        split at h3
        · split at h3
          · cases hf : exclusiveMinimumFlag n <;> rw [hf] at h3 <;>
              simp at h3 <;> simp [h3.symm]
          · exact absurd h3 (by simp)
        · exact absurd h3 (by simp)
      rcases hr3 with hr | hr <;> subst hr <;>
        cases hf : exclusiveMinimumFlag n <;> simp [isLowerBoundRule]
  · unfold numberLessThanFactory exclusiveMinimumFlag
    rw [show (SchemaM.mk SchemaKind.number n).node = n from rfl,
        show (SchemaM.mk SchemaKind.number n₂).node = n₂ from rfl,
        hmax, hexcl]

/-- C5 witness: the claim theorem applied to a concrete number schema with a
numeric maximum, a numeric minimum, and a truthy exclusiveMinimum flag. -/
theorem numberBoundRules_claim_witness :
    (localRules ⟨.number, Ast.obj [("maximum", Ast.lit (Lit.num 10)),
        ("minimum", Ast.lit (Lit.num 1)),
        ("exclusiveMinimum", Ast.lit (Lit.bool true))]⟩).filter isUpperBoundRule =
      [RuleId.numberLt]
    ∧ (localRules ⟨.number, Ast.obj [("maximum", Ast.lit (Lit.num 10)),
        ("minimum", Ast.lit (Lit.num 1)),
        ("exclusiveMinimum", Ast.lit (Lit.bool true))]⟩).filter isLowerBoundRule =
      [RuleId.numberGt] :=
  ⟨(numberBoundRules_claim _).1 10 rfl, (numberBoundRules_claim _).2.1 1 rfl⟩

theorem additionalPropertiesLit_false_iff (n : Ast) (l? : Option Lit)
    (h : additionalPropertiesLit n = .ok l?) :
    l? = some (.bool false) ↔
      getProp n "additionalProperties" = some (.lit (.bool false)) := by
  unfold additionalPropertiesLit at h
  cases hp : getProp n "additionalProperties" with
  | none =>
    simp only [hp] at h
    have hnone : l? = none := (Except.ok.inj h).symm
    subst hnone
    simp [hp]
  | some v =>
    cases v with
    | lit l =>
      simp only [hp] at h
      have hval : l? = some l := (Except.ok.inj h).symm
      subst hval
      simp
    | obj fields =>
      simp only [hp] at h
      cases hts : toSchemaOrRef (some (.obj fields)) with
      | error e => simp only [hts] at h; exact absurd h (by simp)
      | ok w =>
        simp only [hts] at h
        have hnone : l? = none := (Except.ok.inj h).symm
        subst hnone
        simp
    | arr items =>
      simp only [hp] at h
      have hnone : l? = none := (Except.ok.inj h).symm
      subst hnone
      simp

theorem objectMaxPropertiesFactory_tag (d : SchemaM) (r : ObjRuleId)
    (h : objectMaxPropertiesFactory d = some r) : r = .objectMaxProperties := by
  unfold objectMaxPropertiesFactory at h
  split at h
  · split at h
    · exact (Option.some.inj h).symm
    · exact absurd h (by simp)
  · exact absurd h (by simp)

theorem objectMinPropertiesFactory_tag (d : SchemaM) (r : ObjRuleId)
    (h : objectMinPropertiesFactory d = some r) : r = .objectMinProperties := by
  unfold objectMinPropertiesFactory at h
  split at h
  · split at h
    · exact (Option.some.inj h).symm
    · exact absurd h (by simp)
  · exact absurd h (by simp)

/-- C8: for an object schema, the additional-properties-forbidden rule is in
the emitted object rules exactly when the `additionalProperties` property is
the literal `false`; a nested schema object or the literal `true` there
emits no such rule. -/
theorem objectAdditionalProperties_claim (n : Ast) (rules : List ObjRuleId)
    (h : parseObjectRules ⟨.object, n⟩ = .ok rules) :
    ObjRuleId.objectAdditionalProperties ∈ rules ↔
      getProp n "additionalProperties" = some (.lit (.bool false)) := by
  unfold parseObjectRules objectAdditionalPropertiesFactory at h
  rw [if_pos rfl] at h
  cases hadd : additionalPropertiesLit (SchemaM.mk .object n).node with
  | error e => rw [hadd] at h; exact absurd h (by simp)
  | ok l? =>
    rw [hadd] at h
    have hrules := (Except.ok.inj h).symm
    subst hrules
    rw [← additionalPropertiesLit_false_iff n l? hadd]
    constructor
    · intro hmem
      rcases List.mem_append.mp hmem with hm | hm
      · rcases List.mem_append.mp hm with hm2 | hm2
        · rcases Option.mem_toList.mp hm2 with hm3
          have := objectMaxPropertiesFactory_tag _ _ hm3
          exact absurd this (by simp)
        · rcases Option.mem_toList.mp hm2 with hm3
          have := objectMinPropertiesFactory_tag _ _ hm3
          exact absurd this (by simp)
      · rcases Option.mem_toList.mp hm with hm3
        by_cases hf : l? = some (.bool false)
        · exact hf
        · rw [if_neg hf] at hm3; exact absurd hm3 (by simp)
    · intro hf
      refine List.mem_append.mpr (Or.inr ?_)
      rw [if_pos hf]
      simp

/-- C8 witness: the claim theorem applied to a concrete object schema whose
`additionalProperties` is the literal `false`, under which the rule list
evaluates to exactly the additional-properties rule. -/
theorem objectAdditionalProperties_claim_witness :
    ObjRuleId.objectAdditionalProperties ∈
      ([ObjRuleId.objectAdditionalProperties] : List ObjRuleId) :=
  (objectAdditionalProperties_claim
      (Ast.obj [("type", Ast.lit (Lit.str "object")),
                ("additionalProperties", Ast.lit (Lit.bool false))])
      [ObjRuleId.objectAdditionalProperties] rfl).mpr rfl

theorem findTwo_ne_default (resp : Ast) (k : String)
    (h : (objKeys resp).find? (fun c => jsStartsWith c "2") = some k) :
    (k == "default") = false := by
  have hpred := List.find?_some h
  by_cases he : k = "default"
  · subst he; exact absurd hpred (by decide)
  · exact beq_eq_false_iff_ne.mpr he

/-- C3 (amended): the success status code is the numeric value of the first
response key starting with `2` in document order when that key is numeric;
else, when a `default` response is the usable key, the code is 202 for verb
`delete`, 204 for verb `options`, 201 for verb `post`, and 200 for every
other verb when the default response declares body content, and 204 when it
declares none; and 200 when neither a numeric 2xx key nor a `default` key
exists. -/
theorem parseResponseCode_claim (root : Ast) (verb : String) (op resp : Ast)
    (hresp : getProp op "responses" = some resp) :
    (∀ (k : String) (n : Int),
        (objKeys resp).find? (fun c => jsStartsWith c "2") = some k →
        jsToNumber? k = some n →
        parseResponseCode root verb op = .ok n)
    ∧ ((((objKeys resp).find? (fun c => jsStartsWith c "2")).bind jsToNumber?) = none →
        getProp resp "default" = none →
        parseResponseCode root verb op = .ok 200)
    ∧ (∀ d r : Ast,
        (((objKeys resp).find? (fun c => jsStartsWith c "2")).bind jsToNumber?) = none →
        getProp resp "default" = some d →
        resolveNode root d = some r →
        parseResponseCode root verb op =
          .ok (if (contentKeys r).length != 0 then verbDefaultCode verb else 204)) := by
  refine ⟨fun k n hk hn => ?_, fun hnone hdef => ?_, fun d r hnone hdef hres => ?_⟩
  · have hkd := findTwo_ne_default resp k hk
    simp only [parseResponseCode, parsePrimaryResponseKey, responsesOf, hresp,
      hk, hkd, hn, Bool.false_eq_true, if_false]
  · cases hfind : (objKeys resp).find? (fun c => jsStartsWith c "2") with
    | none =>
      simp only [parseResponseCode, parsePrimaryResponseKey, responsesOf,
        hresp, hfind, hdef, Option.isSome_none, Bool.false_eq_true, if_false]
    | some k =>
      have hkd := findTwo_ne_default resp k hfind
      have hnum : jsToNumber? k = none := by
        rw [hfind] at hnone; simpa using hnone
      simp only [parseResponseCode, parsePrimaryResponseKey, responsesOf,
        hresp, hfind, hkd, hnum, hdef, Option.isSome_none,
        Bool.false_eq_true, if_false]
  · cases hfind : (objKeys resp).find? (fun c => jsStartsWith c "2") with
    | none =>
      simp only [parseResponseCode, parsePrimaryResponseKey, responsesOf,
        hresp, hfind, hdef, hres, Option.isSome_some, if_true,
        Option.some_bind, verbDefaultCode]
      split <;> rfl
    | some k =>
      have hkd := findTwo_ne_default resp k hfind
      have hnum : jsToNumber? k = none := by
        rw [hfind] at hnone; simpa using hnone
      simp only [parseResponseCode, parsePrimaryResponseKey, responsesOf,
        hresp, hfind, hkd, hnum, hdef, hres, Option.isSome_some, if_true,
        Bool.false_eq_true, if_false, Option.some_bind, verbDefaultCode]
      split <;> rfl

/-- C3 witness: the amended claim theorem applied to a concrete `delete`
operation whose only success response is `default` with a body, yielding
202 (the scenario the spec spells out). -/
theorem parseResponseCode_claim_witness :
    parseResponseCode (Ast.obj []) "delete" defaultOnlyOp = .ok 202 :=
  ((parseResponseCode_claim (Ast.obj []) "delete" defaultOnlyOp
      (Ast.obj [("default",
        Ast.obj [("description", Ast.lit (Lit.str "d")),
                 ("content", Ast.obj [("application/json", Ast.obj [])])])])
      rfl).2.2
    (Ast.obj [("description", Ast.lit (Lit.str "d")),
              ("content", Ast.obj [("application/json", Ast.obj [])])])
    (Ast.obj [("description", Ast.lit (Lit.str "d")),
              ("content", Ast.obj [("application/json", Ast.obj [])])])
    rfl rfl rfl).trans rfl

/-- C3 counterexample: a `post` operation whose only success response is
`default` with body content gets success code 201 from the code, not the
200 the claim assigns to every verb other than `delete` and `options`. -/
theorem parseResponseCode_counterexample :
    parseResponseCode (Ast.obj []) "post" defaultOnlyOp = .ok 201
    ∧ parseResponseCode (Ast.obj []) "post" defaultOnlyOp ≠ .ok 200 := by
  refine ⟨rfl, fun h => ?_⟩
  rw [show parseResponseCode (Ast.obj []) "post" defaultOnlyOp = Except.ok 201 from rfl] at h
  simp at h

/-- C6: the security options of an operation come from the operation-level
security list when one is declared (never merged with the document-level
list: the result is a function of the operation list and the scheme index
alone); otherwise they come from the document-level security list when one
is declared; when neither is declared there are zero options; and a
requirement key whose definition is an `openIdConnect` scheme contributes
nothing to its option. -/
theorem parseSecurity_claim (doc op : Ast) :
    (∀ l : List Ast, getArrChildren op "security" = some l →
        parseSecurity doc op = mapExcept (securityOption (schemesOf doc)) l)
    ∧ (∀ l : List Ast, getArrChildren op "security" = none →
        getArrChildren doc "security" = some l →
        parseSecurity doc op = mapExcept (securityOption (schemesOf doc)) l)
    ∧ (getArrChildren op "security" = none →
        getArrChildren doc "security" = none →
        parseSecurity doc op = .ok [])
    ∧ (∀ (schemes req node : Ast) (key : String),
        toSecuritySchemeOrRef (getProp schemes key) =
          .ok (some (SecNodeKind.openIdConnect, node)) →
        securityScheme (some schemes) req key = .ok none) := by
  refine ⟨fun l h => ?_, fun l h1 h2 => ?_, fun h1 h2 => ?_,
    fun schemes req node key h => ?_⟩
  · simp [parseSecurity, h, Option.orElse]
  · simp [parseSecurity, h1, h2, Option.orElse]
  · simp [parseSecurity, h1, h2, Option.orElse, mapExcept]
  · cases harr : getArrChildren req key <;>
      simp [securityScheme, h, harr]

/-- C6 witness: the claim theorem applied to a concrete document and
operation.  The operation list overrides the document list (the option set
names both declared keys of the operation requirement) and the
`openIdConnect` scheme under `k2` contributes nothing, leaving only the
Basic scheme from `k1`; an operation without a security list of its own
falls back to the document-level list. -/
theorem parseSecurity_claim_witness :
    parseSecurity sampleDoc sampleOp = .ok [[⟨SecKind.basic, "k1"⟩]]
    ∧ parseSecurity sampleDoc (Ast.obj []) = .ok [[⟨SecKind.basic, "k1"⟩]]
    ∧ securityScheme (some sampleSchemes) (Ast.obj [("k2", Ast.arr [])]) "k2" =
        .ok none :=
  ⟨((parseSecurity_claim sampleDoc sampleOp).1
      [Ast.obj [("k1", Ast.arr []), ("k2", Ast.arr [])]] rfl).trans rfl,
   ((parseSecurity_claim sampleDoc (Ast.obj [])).2.1
      [Ast.obj [("k1", Ast.arr [])]] rfl rfl).trans rfl,
   (parseSecurity_claim sampleDoc sampleOp).2.2.2 sampleSchemes
      (Ast.obj [("k2", Ast.arr [])])
      (Ast.obj [("type", Ast.lit (Lit.str "openIdConnect"))]) "k2" rfl⟩

theorem httpGroup_append (root : Ast) (xs ys : List Ast) :
    httpGroup root (xs ++ ys) =
      match httpGroup root xs with
      | .error e => .error e
      | .ok a =>
        match httpGroup root ys with
        | .error e => .error e
        | .ok b => .ok (a ++ b) := by
  induction xs with
  | nil =>
    simp only [List.nil_append, httpGroup]
    cases httpGroup root ys <;> rfl
  | cons p rest ih =>
    show httpGroup root (p :: (rest ++ ys)) = _
    simp only [httpGroup]
    cases hp : httpParamOf root p with
    | error e => rfl
    | ok o =>
      cases o with
      | none => exact ih
      | some h =>
        rw [ih]
        cases httpGroup root rest with
        | error e => rfl
        | ok a =>
          cases httpGroup root ys <;> rfl

theorem resolveFilter_append (root : Ast) (xs ys : List Ast) :
    resolveFilter root (xs ++ ys) =
      match resolveFilter root xs with
      | .error e => .error e
      | .ok a =>
        match resolveFilter root ys with
        | .error e => .error e
        | .ok b => .ok (a ++ b) := by
  induction xs with
  | nil =>
    simp only [List.nil_append, resolveFilter]
    cases resolveFilter root ys <;> rfl
  | cons p rest ih =>
    show resolveFilter root (p :: (rest ++ ys)) = _
    simp only [resolveFilter]
    cases hp : resolveParam root p with
    | error e => rfl
    | ok o =>
      cases o with
      | none => exact ih
      | some a =>
        rw [ih]
        cases resolveFilter root rest with
        | error e => rfl
        | ok l =>
          cases resolveFilter root ys <;> rfl

theorem mapExcept_append {γ β : Type} (f : γ → Except Unit β) (xs ys : List γ) :
    mapExcept f (xs ++ ys) =
      match mapExcept f xs with
      | .error e => .error e
      | .ok a =>
        match mapExcept f ys with
        | .error e => .error e
        | .ok b => .ok (a ++ b) := by
  induction xs with
  | nil =>
    simp only [List.nil_append, mapExcept]
    cases mapExcept f ys <;> rfl
  | cons x rest ih =>
    show mapExcept f (x :: (rest ++ ys)) = _
    simp only [mapExcept]
    cases f x with
    | error e => rfl
    | ok b =>
      rw [ih]
      cases mapExcept f rest with
      | error e => rfl
      | ok a =>
        cases mapExcept f ys <;> rfl

/-- C4 (amended): when the operation synthesizes a request-body parameter,
that parameter — named by `parseBodyParamName`, so `body` unless overridden
by the `x-codegen-request-body-name` extension — is first in both the
method parameter list and the HTTP binding parameter list.  Among the
remaining parameters each group keeps document order, but the two lists
order the groups oppositely: the method list puts path-level shared
parameters before operation-level ones, while the HTTP binding puts
operation-level parameters before path-level ones. -/
theorem parameterOrder_claim {β : Type} (bodyElab : Ast → Except Unit Bool)
    (paramElab : Ast → Except Unit β) (root op : Ast)
    (commonParams opParams : List Ast)
    (hop : opParamsOf op = .ok opParams) :
    (parseHttpMethodParams bodyElab root op commonParams =
      match requestBodyName bodyElab op with
      | .error e => .error e
      | .ok b =>
        match httpGroup root opParams with
        | .error e => .error e
        | .ok ho =>
          match httpGroup root commonParams with
          | .error e => .error e
          | .ok hc =>
            .ok ((b.map (fun nm => HttpParamM.mk (.str nm) (.str "body"))).toList
                 ++ (ho ++ hc)))
    ∧ (parseParametersM bodyElab paramElab root op commonParams =
      match requestBodyName bodyElab op with
      | .error e => .error e
      | .ok b =>
        match methodGroup paramElab root commonParams with
        | .error e => .error e
        | .ok mc =>
          match methodGroup paramElab root opParams with
          | .error e => .error e
          | .ok mo =>
            .ok ((b.map MethodParam.body).toList ++ (mc ++ mo)))
    ∧ (getProp op "requestBody" = none →
        requestBodyName bodyElab op = .ok none)
    ∧ (∀ b : Ast, getProp op "requestBody" = some b →
        requestBodyName bodyElab op =
          match bodyElab b with
          | .error e => .error e
          | .ok present =>
            .ok (if present then some (parseBodyParamName op) else none))
    ∧ ((metaPairs op).find?
          (fun p => kebab p.1 == "codegen-request-body-name") = none →
        parseBodyParamName op = "body") := by
  refine ⟨?_, ?_, fun h => ?_, fun b h => ?_, fun h => ?_⟩
  · unfold parseHttpMethodParams
    cases hb : requestBodyName bodyElab op with
    | error e => rfl
    | ok b =>
      simp only [hb, hop, httpGroup_append]
      cases ho : httpGroup root opParams with
      | error e => simp only [ho]
      | ok a =>
        simp only [ho]
        cases hc : httpGroup root commonParams <;> simp only [hc]
  · unfold parseParametersM methodGroup
    simp only [hop, resolveFilter_append]
    cases hc : resolveFilter root commonParams with
    | error e =>
      simp only [hc]
      cases requestBodyName bodyElab op <;> rfl
    | ok rc =>
      simp only [hc]
      cases ho : resolveFilter root opParams with
      | error e =>
        simp only [ho]
        cases me : mapExcept paramElab rc with
        | error e2 => simp only [me]; cases requestBodyName bodyElab op <;> rfl
        | ok ec => simp only [me]; cases requestBodyName bodyElab op <;> rfl
      | ok ro =>
        simp only [ho, mapExcept_append]
        cases me : mapExcept paramElab rc with
        | error e => simp only [me]; cases requestBodyName bodyElab op <;> rfl
        | ok ec =>
          simp only [me]
          cases mo : mapExcept paramElab ro with
          | error e => simp only [mo]; cases requestBodyName bodyElab op <;> rfl
          | ok eo =>
            simp only [mo]
            cases requestBodyName bodyElab op with
            | error e => rfl
            | ok b => simp [List.map_append, List.append_assoc]
  · unfold requestBodyName
    rw [h]
  · unfold requestBodyName
    rw [h]
  · unfold parseBodyParamName
    rw [h]

/-- C4 witness: the amended claim theorem applied at a concrete operation
with a request body, a declared parameter and a shared path-level
parameter, with concrete elaborations; the body parameter comes first in
both lists, the HTTP binding then lists the operation-level parameter
before the shared one, and the method list the reverse. -/
theorem parameterOrder_claim_witness :
    parseHttpMethodParams (fun _ => .ok true) (Ast.obj []) opWithBody
        [queryParamC] =
      .ok [⟨.str "body", .str "body"⟩, ⟨.str "o", .str "query"⟩,
           ⟨.str "c", .str "query"⟩]
    ∧ parseParametersM (fun _ => .ok true) (fun a => .ok a) (Ast.obj [])
        opWithBody [queryParamC] =
      .ok [MethodParam.body "body", MethodParam.param queryParamC,
           MethodParam.param queryParamO] :=
  ⟨((parameterOrder_claim (fun _ => .ok true) (fun a => .ok a) (Ast.obj [])
      opWithBody [queryParamC] [queryParamO] rfl).1).trans rfl,
   ((parameterOrder_claim (fun _ => .ok true) (fun a => .ok a) (Ast.obj [])
      opWithBody [queryParamC] [queryParamO] rfl).2.1).trans rfl⟩

/-- C4 counterexample: an operation with no request body, one declared
query parameter `o`, and one path-level shared query parameter `c`.  In the
HTTP binding the operation-level parameter `o` comes first, so the
path-level shared parameter does not precede it as the claim requires.  The
body elaboration argument is irrelevant here (there is no `requestBody`)
and is instantiated arbitrarily. -/
theorem parameterOrder_counterexample :
    parseHttpMethodParams (fun _ => .ok false) (Ast.obj []) opWithParam
        [queryParamC] =
      .ok [⟨.str "o", .str "query"⟩, ⟨.str "c", .str "query"⟩]
    ∧ ([⟨.str "o", .str "query"⟩, ⟨.str "c", .str "query"⟩] : List HttpParamM) ≠
        [⟨.str "c", .str "query"⟩, ⟨.str "o", .str "query"⟩] := by
  refine ⟨rfl, ?_⟩
  decide

end OAS3V
